import Mathlib

/-!
Verification development for the pdf library (parse.go, serialize.go,
stream.go).  Each Go function relevant to the checked claims is shallowly
embedded as an executable Lean definition, translated line by line from the
source; theorems about those definitions settle the claims.
-/

namespace PdfSpec

/-! ## Data model (parse.go)

`PdfObject` mirrors the Go struct with id, gen, start, stop as int64.
`RawEntry` is one 20-byte XREF table entry after lexing: the 10-digit
offset, the 5-digit generation and the in-use flag (`n` vs `f`). -/

structure PdfObject where
  id    : Int
  gen   : Int
  start : Int
  stop  : Int
deriving Repr, DecidableEq

structure RawEntry where
  offset : Int
  gen    : Int
  inUse  : Bool
deriving Repr, DecidableEq

/-- Association map standing for Go's `map[int64]*PdfObject`. -/
abbrev ObjMap := List (Int × PdfObject)

/-- Lookup in the association map, mirroring `pf.ObjById[id]`. -/
def lookupId (id : Int) : ObjMap → Option PdfObject
  | [] => none
  | (k, v) :: rest => if k = id then some v else lookupId id rest

/-! ## parseXrefSubsection (parse.go:989-1086)

The function is split into its three phases exactly as in the source:
the entry loop that collects in-use boundaries and detects bad offsets
(lines 999-1064), the stop-offset derivation or invalidation (lines
1066-1077), and the merge into `ObjById` (lines 1079-1084). -/

/-- Entry loop of `parseXrefSubsection` (parse.go:999-1064).  Walks the
subsection entries; each in-use entry is turned into a `PdfObject` with
`stop = -1`.  Once an offset exceeds `maxObjPos` (or a bad offset was seen
before, line 1046), strict mode fails and fix mode records `badOffset`
(the number of in-use entries collected so far, line 1056) and stores
`start = -1` (line 1058).  Free entries are ignored (line 1045). -/
def collectBoundaries (fix : Bool) (maxObjPos startId : Int) :
    List RawEntry → Int → List PdfObject → Int →
    Except Unit (List PdfObject × Int)
  | [], _, acc, bad => .ok (acc, bad)
  | e :: rest, i, acc, bad =>
    if e.inUse then
      if bad ≠ -1 ∨ e.offset > maxObjPos then
        if ¬ fix then .error ()
        else
          let bad' := if bad = -1 then (acc.length : Int) else bad
          collectBoundaries fix maxObjPos startId rest (i + 1)
            (acc ++ [⟨startId + i, e.gen, -1, -1⟩]) bad'
      else
        collectBoundaries fix maxObjPos startId rest (i + 1)
          (acc ++ [⟨startId + i, e.gen, e.offset, -1⟩]) bad
    else
      collectBoundaries fix maxObjPos startId rest (i + 1) acc bad

/-- Comparison of boundaries by start offset, the `Less` method of
`objBoundaries` (parse.go:54-56) up to reflexivity. -/
def startLE (a b : PdfObject) : Prop := a.start ≤ b.start

instance : DecidableRel startLE :=
  fun a b => inferInstanceAs (Decidable (a.start ≤ b.start))

instance : IsTotal PdfObject startLE :=
  ⟨fun a b => Int.le_total a.start b.start⟩

instance : IsTrans PdfObject startLE :=
  ⟨fun _ _ _ h1 h2 => Int.le_trans h1 h2⟩

/-- Sort of the in-use boundaries by start offset
(`sort.Sort(boundaries[:nInUse])`, parse.go:1067). -/
def sortBoundaries (l : List PdfObject) : List PdfObject :=
  l.insertionSort startLE

/-- Stop-offset derivation (parse.go:1069-1072): every boundary but the
last gets the next boundary's start as its stop; the last one is left
unchanged. -/
def deriveStops : List PdfObject → List PdfObject
  | [] => []
  | [a] => [a]
  | a :: b :: rest => { a with start := a.start, stop := b.start } :: deriveStops (b :: rest)

/-- Invalidation loop for bad offsets (parse.go:1074-1076):
`for i := 0; i < badOffset - 1; i++ { boundaries[i].start = -1 }`. -/
def invalidateStarts : Int → List PdfObject → List PdfObject
  | _, [] => []
  | n, a :: rest =>
    if n > 0 then { a with start := -1 } :: invalidateStarts (n - 1) rest
    else a :: rest

/-- Boundary list produced by `parseXrefSubsection` before the merge:
sorted with derived stops when all offsets were valid (parse.go:1066-1072),
partially invalidated otherwise (parse.go:1073-1077). -/
def subsectionBoundaries (fix : Bool) (maxObjPos startId : Int)
    (entries : List RawEntry) : Except Unit (List PdfObject) :=
  match collectBoundaries fix maxObjPos startId entries 0 [] (-1) with
  | .error e => .error e
  | .ok (bs, bad) =>
    if bad = -1 then .ok (deriveStops (sortBoundaries bs))
    else .ok (invalidateStarts (bad - 1) bs)

/-- Merge into the document map (parse.go:1079-1084): each boundary is
inserted only if no entry with its id is present already. -/
def insertAbsent (byId : ObjMap) (bs : List PdfObject) : ObjMap :=
  bs.foldl (fun m b => if (lookupId b.id m).isSome then m else m ++ [(b.id, b)]) byId

/-- Whole of `parseXrefSubsection` (parse.go:989-1086): boundary
construction followed by the merge into `ObjById`. -/
def parseXrefSubsection (fix : Bool) (maxObjPos startId : Int)
    (entries : List RawEntry) (byId : ObjMap) : Except Unit ObjMap :=
  match subsectionBoundaries fix maxObjPos startId entries with
  | .error e => .error e
  | .ok bs => .ok (insertAbsent byId bs)

/-- One XREF subsection after lexing: the `firstId count` line reduced to
its start id, plus the entry list. -/
structure XrefSubsection where
  startId : Int
  entries : List RawEntry
deriving Repr, DecidableEq

/-- `parseXrefTable` (parse.go:1088-1119) reduced to its effect on
`ObjById`: the map is re-allocated at line 1093
(`pf.ObjById = make(map[int64]*PdfObject, size)`) — the incoming map is
discarded — then every subsection of the section is ingested in order,
with `maxObjPos` being the XREF start of this section (parse.go:1114). -/
def parseXrefTable (fix : Bool) (xrefStart : Int)
    (subs : List XrefSubsection) : Except Unit ObjMap :=
  subs.foldlM (fun m s => parseXrefSubsection fix xrefStart s.startId s.entries m) []

/-- One block of the update chain: the file position of its XREF section
and the subsections listed there. -/
structure XrefBlock where
  xrefStart : Int
  subs      : List XrefSubsection
deriving Repr, DecidableEq

/-- XREF chain traversal of `parse` (parse.go:1414-1432): the blocks are
processed strictly from the newest update to the oldest, each one through
`parseXrefTable`.  Because `parseXrefTable` re-allocates `ObjById`, the
map produced by the previous (newer) block is thrown away. -/
def parseXrefChain (fix : Bool) (blocks : List XrefBlock) : Except Unit ObjMap :=
  blocks.foldlM (fun _ b => parseXrefTable fix b.xrefStart b.subs) []

/-! ## Stream length checking (parse.go:532-660)

The byte window of a stream object is modelled as the list `body` of the
bytes from the stream start (just after the EOL following the `stream`
keyword) up to the parse boundary (`stopAt`); `streamStart` is the
absolute file position of the stream start (`fi.bStart + fi.offset`),
and `stop` the object's declared end from the XREF (`objDef.stop`,
-1 when unknown) handed down through `getObjectDef` and
`getDictionaryOrStream`.  `w` is the size of the local look-up window
used by `checkExpectedEndStream` (15 bytes when the current buffer
suffices, 256 when the file is re-read, parse.go:546-555). -/

/-- Byte values of the keyword `endstream`. -/
def endstreamBytes : List Nat := [101, 110, 100, 115, 116, 114, 101, 97, 109]

/-- First index at which `pat` occurs in the list (Go `bytes.Index`). -/
def indexOfSub (pat : List Nat) : List Nat → Option Nat
  | [] => if pat.isEmpty then some 0 else none
  | a :: rest =>
    if pat.isPrefixOf (a :: rest) then some 0
    else (indexOfSub pat rest).map (· + 1)

/-- Embeds `checkExpectedEndStream` (parse.go:532-574).  The expected end
position `streamStart + l` is first gated against the readable range
(`stopAt` and the file size, parse.go:539) and against the object's
declared end (`stop != -1 && expectedEndPos > stop`, parse.go:540); then
`endstream` is looked up in a window of `w` bytes starting at offset `l`,
an occurrence at offset 1 or 2 preceded only by LF or CRLF counting as at
offset 0 (parse.go:560-571).  Returns the actual stream length, or `none`
when a gate fires or no `endstream` is in the window. -/
def checkExpectedEndStream (streamStart : Nat) (body : List Nat)
    (l w : Nat) (stop : Int) : Option Nat :=
  if l > body.length then none
  else if stop ≠ -1 ∧ (streamStart + l : Int) > stop then none
  else
    match indexOfSub endstreamBytes ((body.drop l).take w) with
    | none => none
    | some e =>
      if e = 2 then
        if body.get? l = some 13 ∧ body.get? (l + 1) = some 10 then some l
        else some (l + e)
      else if e = 1 then
        if body.get? l = some 10 ∨ body.get? l = some 13 then some l
        else some (l + e)
      else some (l + e)

/-- Embeds `getStreamBytes` (parse.go:576-617).  When no `endstream` is
near the declared end (including when the declared end crosses the
object's `stop` boundary): strict mode fails, fix mode scans the whole
body from the stream start for the first `endstream`
(`readUpToEndstream`, parse.go:216-238) and takes the bytes before it.
When an `endstream` is found near the declared end at actual length
`actual`: strict mode fails if `actual` differs from the declared
length, otherwise (and always in fix mode) the first `actual` bytes are
the stream data. -/
def getStreamBytes (fix : Bool) (streamStart : Nat) (body : List Nat)
    (l w : Nat) (stop : Int) : Except Unit (List Nat) :=
  match checkExpectedEndStream streamStart body l w stop with
  | none =>
    if ¬ fix then .error ()
    else
      match indexOfSub endstreamBytes body with
      | none => .error ()
      | some e => .ok (body.take e)
  | some actual =>
    if l ≠ actual ∧ ¬ fix then .error ()
    else .ok (body.take actual)

/-- Stream data together with the final `Length` entry, embedding the
stream branch of `getDictionaryOrStream` (parse.go:629-644): after
`getStreamBytes` succeeds, `Length` is overwritten with the actual byte
count whenever it differs from the declared one (parse.go:638-641). -/
def streamDataAndLength (fix : Bool) (streamStart : Nat) (body : List Nat)
    (l w : Nat) (stop : Int) : Except Unit (List Nat × Nat) :=
  match getStreamBytes fix streamStart body l w stop with
  | .error e => .error e
  | .ok d => .ok (d, if d.length ≠ l then d.length else l)

/-- Stream body for the object-boundary scenario: 10 payload bytes, an
`endstream` keyword, 8 filler bytes and a second `endstream`. -/
def streamDemoBody : List Nat :=
  List.replicate 10 65 ++ endstreamBytes ++ List.replicate 8 66 ++ endstreamBytes

/-! ## Dictionary parsing and serialization (parse.go:619-661, serialize.go:182-195)

A parsed dictionary is the ordered key list `keys` plus the map `data`;
the Go map is modelled as an association list where an insert shadows
earlier bindings.  The key/value pairs read from the file are taken as
already lexed: `getDictionaryOrStream` appends every name token to `keys`
and overwrites `data[name]` (parse.go:646-660). -/

structure pdfDictionary (α : Type) where
  keys : List String
  data : List (String × α)
deriving Repr, DecidableEq

/-- Lookup in the modelled Go map: the most recent binding wins. -/
def dictLookup (m : List (String × α)) (k : String) : Option α :=
  match m with
  | [] => none
  | (k2, v) :: rest => if k2 = k then some v else dictLookup rest k

/-- Map update `m[name] = value` (parse.go:656): the new binding shadows
any earlier one. -/
def dictInsert (m : List (String × α)) (k : String) (v : α) : List (String × α) :=
  (k, v) :: m

/-- Key/value loop of `getDictionaryOrStream` (parse.go:646-660): for each
pair, the key is appended to the ordered key list and the value stored in
the map. -/
def getDictionaryPairs (ps : List (String × α)) : pdfDictionary α :=
  ps.foldl (fun d p => ⟨d.keys ++ [p.1], dictInsert d.data p.1 p.2⟩) ⟨[], []⟩

/-- Emission loop of `serializeDictionary` (serialize.go:182-195): one
`/Key value` entry per element of `keys`, in list order; a key without a
value in the map is the Go panic, modelled as `none`. -/
def serializeDictionary (d : pdfDictionary α) : Option (List (String × α)) :=
  go d.data d.keys
where
  go (data : List (String × α)) : List String → Option (List (String × α))
    | [] => some []
    | k :: rest =>
      match dictLookup data k with
      | none => none
      | some v => (go data rest).map (fun es => (k, v) :: es)

/-- Modelled from the spec: the list of dictionary keys in their order of
first appearance in the file (each key once, at its first occurrence), the
reading of the claim being checked against the parser. -/
def specFirstAppearanceOrder (ks : List String) : List String :=
  ks.foldl (fun acc k => if k ∈ acc then acc else acc ++ [k]) []

/-! ## Stream filters (stream.go) -/

/-- Embeds `makeNibbleFromHexChar` (parse.go:707-719), also used by
`checkASCIIHexDecode`: 255 (0xff) marks an invalid hex digit. -/
def makeNibbleFromHexChar (c : Nat) : Nat :=
  if c < 48 then 255
  else if c ≤ 57 then c - 48
  else
    let c2 := c &&& 223
    if c2 < 65 ∨ c2 > 70 then 255 else c2 - 65 + 10

/-- Decode loop of `checkASCIIHexDecode` (stream.go:15-39).  State: the
decoded output, the running nibble offset and the pending first nibble
`val`.  Stops at `>` or at the end of the data, failing on a character
that is neither a hex digit nor whitespace. -/
def asciiHexLoop : List Nat → List Nat → Nat → Nat →
    Except (List Nat) (List Nat × Nat)
  | [], out, _, val => .ok (out, val)
  | v :: rest, out, offset, val =>
    if v = 62 then .ok (out, val)
    else if v = 0 ∨ v = 9 ∨ v = 10 ∨ v = 12 ∨ v = 13 ∨ v = 32 then
      asciiHexLoop rest out offset val
    else
      let nib := makeNibbleFromHexChar v
      if nib = 255 then .error out
      else if offset % 2 = 0 then asciiHexLoop rest out (offset + 1) nib
      else asciiHexLoop rest (out ++ [val * 16 + nib]) (offset + 1) val

/-- Embeds `checkASCIIHexDecode` (stream.go:9-51).  After the loop the Go
code tests `dl & 1 == 1` — the parity of the DECODED length, not of the
nibble count — and then appends `val << 4` (stream.go:40-46).  The result
pairs the decoded bytes with the error flag. -/
def checkASCIIHexDecode (data : List Nat) (verbose fix : Bool) :
    List Nat × Bool :=
  match asciiHexLoop data [] 0 0 with
  | .error out => (out, true)
  | .ok (out, val) =>
    if out.length % 2 = 1 then (out ++ [val * 16], false) else (out, false)

/-- State of the ASCII-85 decode loop: decoded output, index in the
current 5-character group and the 32-bit accumulator (`n64`). -/
structure A85State where
  out : List Nat
  gi  : Nat
  n64 : Nat
deriving Repr, DecidableEq

/-- The four bytes of a completed ASCII-85 group (stream.go:95-98). -/
def a85Group (n : Nat) : List Nat :=
  [n / 2 ^ 24 % 256, n / 2 ^ 16 % 256, n / 2 ^ 8 % 256, n % 256]

/-- Padding of the last partial group with `u` characters
(stream.go:124-126): `n64 = n64*85 + 84`, once per missing character. -/
def padTimes : Nat → Nat → Nat
  | n, 0 => n
  | n, k + 1 => padTimes (n * 85 + 84) k

/-- Decode loop of `checkASCII85Decode` (stream.go:64-106).  Returns the
final state and the index of the `~` that starts EOD (or `none` when the
data ran out first); errors carry the output decoded so far, as in the Go
returns. -/
def a85Loop : List Nat → Nat → A85State →
    Except (List Nat) (A85State × Option Nat)
  | [], _, s => .ok (s, none)
  | v :: rest, i, s =>
    if v = 126 then .ok (s, some i)
    else if v = 0 ∨ v = 9 ∨ v = 10 ∨ v = 12 ∨ v = 13 ∨ v = 32 then
      a85Loop rest (i + 1) s
    else if v = 122 then
      if s.gi ≠ 0 then .error s.out
      else a85Loop rest (i + 1) { s with out := s.out ++ [0, 0, 0, 0] }
    else if v < 33 ∨ v > 117 then .error s.out
    else
      let n := s.n64 * 85 + (v - 33)
      if s.gi = 4 then
        if n > 4294967295 then .error s.out
        else a85Loop rest (i + 1) ⟨s.out ++ a85Group n, 0, 0⟩
      else a85Loop rest (i + 1) ⟨s.out, s.gi + 1, n⟩

/-- Embeds `checkASCII85Decode` (stream.go:53-142).  After the loop: the
EOD must be `~>` (stream.go:107-114); then the whole handling of a
partial final group — the `gi == 1` error, the `u` padding, the overflow
check and the emission of `gi - 1` bytes — sits inside
`if verbose { ... }` (stream.go:115-140), so it runs only when `verbose`
is true. -/
def checkASCII85Decode (data : List Nat) (verbose fix : Bool) :
    List Nat × Bool :=
  match a85Loop data 0 ⟨[], 0, 0⟩ with
  | .error out => (out, true)
  | .ok (s, tld) =>
    let offset := tld.getD 0
    if data.length ≤ offset + 1 ∨ data.get? (offset + 1) ≠ some 62 then
      (s.out, true)
    else if verbose then
      if s.gi ≠ 0 then
        if s.gi = 1 then (s.out, true)
        else
          let n := padTimes s.n64 (5 - s.gi)
          if n > 4294967295 then (s.out, true)
          else (s.out ++ (a85Group n).take (s.gi - 1), false)
      else (s.out, false)
    else (s.out, false)

/-! ## Header parsing (parse.go:1294-1362) -/

/-- Embeds `skipToEOL` (parse.go:1305-1320). -/
def skipToEOL (buf : List Nat) (offset : Nat) : Nat :=
  if h : offset < buf.length then
    let c := buf.get ⟨offset, h⟩
    if c = 13 then
      if offset + 1 = buf.length then offset + 1
      else if buf.get? (offset + 1) ≠ some 10 then offset + 1
      else offset + 2
    else if c = 10 then offset + 1
    else skipToEOL buf (offset + 1)
  else offset + 1
termination_by buf.length - offset

/-- Embeds `readFirstLine` (parse.go:1322-1362) on the first 512 bytes
`buf` of the file.  Checks that bytes 0-6 are `%PDF-1.` (byte 7, the
minor-version position, is NOT examined), requires an EOL at byte 8,
requires some content after the header, then skips the optional binary
comment.  Returns the 8-byte header and the offset of the first body
byte, or an error — the fatal bad-header outcome of `parseHeader`
(parse.go:1294-1303) and `parse` (parse.go:1366-1369). -/
def readFirstLine (buf : List Nat) : Except Unit (List Nat × Nat) :=
  if buf.length < 9 ∨ buf.get? 0 ≠ some 37 ∨ buf.get? 1 ≠ some 80 ∨
     buf.get? 2 ≠ some 68 ∨ buf.get? 3 ≠ some 70 ∨ buf.get? 4 ≠ some 45 ∨
     buf.get? 5 ≠ some 49 ∨ buf.get? 6 ≠ some 46 then .error ()
  else
    let oEol : Option Nat :=
      if buf.get? 8 = some 13 then
        if buf.length = 9 then some 8
        else if buf.get? 9 = some 10 then some 9 else some 8
      else if buf.get? 8 = some 10 then some 8
      else none
    match oEol with
    | none => .error ()
    | some o =>
      let i := o + 1
      if i + 5 ≥ buf.length then .error ()
      else if buf.get? i = some 37 ∧ buf.getD (i + 1) 0 ≥ 128 ∧
              buf.getD (i + 2) 0 ≥ 128 ∧ buf.getD (i + 3) 0 ≥ 128 ∧
              buf.getD (i + 4) 0 ≥ 128 then
        .ok (buf.take 8, skipToEOL buf (i + 5))
      else .ok (buf.take 8, i)

/-! ## Number serialization (serialize.go:92-180) -/

/-- First index of the exponent character in the `%g` rendering
(Go `strings.IndexByte(res, 'e')`). -/
def findE : List Char → Option Nat
  | [] => none
  | c :: rest => if c = 'e' then some 0 else (findE rest).map (· + 1)

/-- Value of an all-digit string, `none` on empty or non-digit input. -/
def digitsVal (l : List Char) : Option Nat :=
  if l ≠ [] ∧ l.all Char.isDigit then
    some (l.foldl (fun acc c => acc * 10 + (c.toNat - 48)) 0)
  else none

/-- Embeds `strconv.Atoi` as used at serialize.go:107, where the error is
discarded so invalid input leaves the exponent at 0. -/
def atoiOrZero : List Char → Int
  | '-' :: rest => match digitsVal rest with | some n => -(n : Int) | none => 0
  | '+' :: rest => match digitsVal rest with | some n => (n : Int) | none => 0
  | s => match digitsVal s with | some n => (n : Int) | none => 0

/-- Embeds `serializeNumber` (serialize.go:92-180) as a transformation of
the `%g` rendering `res` of the number.  Without an exponent the string
is written as is; with one, the exponent is denormalised into plain
decimal digits.  `none` is the `panic("Unexpected %g case")` branch
(serialize.go:159), reached exactly when `exp > 0` (or `exp = 0` with an
exponent present) and the decimal point would fall inside the digits. -/
def serializeNumberFormat (res : List Char) : Option (List Char) :=
  match findE res with
  | none => some res
  | some eIdx =>
    let start : Nat := if res.get? 0 = some '-' then 1 else 0
    let exp : Int := atoiOrZero (res.drop (eIdx + 1))
    let ml0 : Int := (eIdx : Int) - start - 1
    let pt : Nat := if res.get? (start + 1) ≠ some '.' then 0 else 1
    let ml : Int := if pt = 0 then ml0 + 1 else ml0
    if exp < 0 then
      some ((if start = 1 then ['-'] else []) ++ ['0', '.'] ++
            List.replicate (-exp - 1).toNat '0' ++
            [res.getD start '0'] ++ (res.drop (start + 2)).take (ml - 1).toNat)
    else
      let dp : Nat := if exp > 0 then (if pt = 1 ∨ exp ≥ ml - 1 then 0 else 1) else 1
      let nZ : Int := if exp > 0 then exp - ml + 1 else -exp
      if dp = 0 then
        some ((if start = 1 then ['-'] else []) ++ [res.getD start '0'] ++
              (res.drop (start + 1 + pt)).take (ml - 1).toNat ++
              List.replicate nZ.toNat '0')
      else none

/-! ## XREF serialization (serialize.go:75-90) -/

/-- The id loop of `serializeXREF` (serialize.go:85-88): starting at `id`
it emits `k` entries `(start, gen)` looked up in `ObjById`; a missing id
is the nil-pointer dereference `obj.start`, modelled as `none`. -/
def xrefEntriesFrom (byId : ObjMap) : Nat → Nat → Option (List (Int × Int))
  | _, 0 => some []
  | id, k + 1 =>
    match lookupId (id : Int) byId with
    | none => none
    | some obj => (xrefEntriesFrom byId (id + 1) k).map (fun es => (obj.start, obj.gen) :: es)

/-- Embeds `serializeXREF` (serialize.go:75-90) reduced to the in-use
entry lines: one entry per id from 1 to `len(Objects)` inclusive. -/
def serializeXREF (objects : List PdfObject) (byId : ObjMap) :
    Option (List (Int × Int)) :=
  xrefEntriesFrom byId 1 objects.length

/-! ## Claims -/

/-- Claim C1 (code bug).  The claim says that after parsing a file with
incremental updates, `ObjById[id]` is the entry of the newest XREF
section listing `id`, thanks to newest-to-oldest traversal and
insert-only-if-absent.  The traversal order and the insertion rule hold,
but `parseXrefTable` re-allocates `ObjById` for every section
(parse.go:1093), so the map built from the newer sections is discarded:
on a chain of two blocks that both list object 1 (newest with start 50,
oldest with start 10), the final map holds the OLDEST entry. -/
theorem parseXrefChain_keeps_oldest_entry :
    parseXrefChain false
        [⟨100, [⟨1, [⟨50, 0, true⟩]⟩]⟩, ⟨40, [⟨1, [⟨10, 0, true⟩]⟩]⟩]
      = .ok [(1, ⟨1, 0, 10, -1⟩)] ∧
    lookupId 1 [(1, (⟨1, 0, 10, -1⟩ : PdfObject))] ≠ some ⟨1, 0, 50, -1⟩ :=
  ⟨rfl, by decide⟩

/-- Claim C5 (code bug).  The claim says that with `fix=true` a bad
offset makes EVERY in-use entry of the subsection end with `start = -1`.
The code records `badOffset` and then invalidates only the entries at
indices below `badOffset - 1` (parse.go:1074-1076), one short of the
comment "one bad offset invalids all previous and following offsets"
(parse.go:1056): on a subsection with in-use offsets 10, 20, 9999 and
bound 100, strict mode errors as claimed, but fix mode leaves the second
entry with `start = 20`. -/
theorem parseXrefSubsection_fix_spares_one_offset :
    subsectionBoundaries false 100 1
        [⟨10, 0, true⟩, ⟨20, 0, true⟩, ⟨9999, 0, true⟩] = .error () ∧
    subsectionBoundaries true 100 1
        [⟨10, 0, true⟩, ⟨20, 0, true⟩, ⟨9999, 0, true⟩]
      = .ok [⟨1, 0, -1, -1⟩, ⟨2, 0, 20, -1⟩, ⟨3, 0, -1, -1⟩] :=
  ⟨rfl, rfl⟩

/-- Claim C6 (code bug).  The claim says a partial final ASCII-85 group
of k characters yields k-1 bytes (k in 2..4) and k=1 is an error, for
every value of verbose and fix.  The whole partial-group handling sits
inside `if verbose` (stream.go:115-140): on `!!~>` (k = 2) the decoder
emits the claimed 1 byte only when verbose is true and emits nothing when
verbose is false, and on `!~>` (k = 1) it errors only when verbose is
true. -/
theorem checkASCII85Decode_tail_depends_on_verbose :
    checkASCII85Decode [33, 33, 126, 62] false false = ([], false) ∧
    checkASCII85Decode [33, 33, 126, 62] true false = ([0], false) ∧
    checkASCII85Decode [33, 126, 62] false false = ([], false) ∧
    checkASCII85Decode [33, 126, 62] true false = ([], true) := by
  decide

/-- Claim C7 (code bug).  The claim says an odd number n of hex digits
yields (n+1)/2 bytes with the last nibble padded to the high half of a
final byte.  The padding test uses the parity of the DECODED length
(`dl & 1`, stream.go:40) instead of the nibble count: `A>` (n = 1)
decodes to no bytes at all instead of the claimed single byte 0xA0, and
the even input `AB>` gains a spurious trailing byte 0xA0. -/
theorem checkASCIIHexDecode_parity_bug :
    checkASCIIHexDecode [65, 62] false false = ([], false) ∧
    checkASCIIHexDecode [65, 66, 62] false false = ([171, 160], false) := by
  decide

/-- Counterexample to claim C2 as stated: in the stream body consisting
of one payload byte, an LF and the `endstream` keyword, with declared
length 1 and unknown object end (`stop = -1`), the keyword is NOT at
offset 1 (the LF is), yet strict mode does not fail:
`checkExpectedEndStream` treats an occurrence one byte past the declared
end preceded by LF as exact (parse.go:560-571). -/
theorem getStreamBytes_accepts_eol_shifted_endstream :
    streamDataAndLength false 0 ([65, 10] ++ endstreamBytes) 1 15 (-1)
      = .ok ([65], 1) ∧
    ¬ endstreamBytes.isPrefixOf (([65, 10] ++ endstreamBytes).drop 1) :=
  ⟨rfl, by decide⟩

/-- The `Length` entry written back by `getDictionaryOrStream` always
equals the byte count of the stream data it keeps. -/
theorem length_update_eq (d : List Nat) (l : Nat) :
    (if d.length ≠ l then d.length else l) = d.length := by
  by_cases h : d.length = l <;> simp [h]

/-- Claim C2 (amended).  For a stream with declared length l: when
`checkExpectedEndStream` yields no actual length — the declared end
`streamStart + l` lies beyond the readable range or beyond the object's
`stop` boundary, or no `endstream` is in the search window starting at
offset l (an occurrence at l+1 or l+2 preceded only by LF or CRLF
counting as at l) — strict mode fails and fix mode takes the bytes up to
the first `endstream` of the whole body (failing when there is none);
when it finds one at actual length a different from l, strict mode fails
and fix mode takes the first a bytes.  In every fix-mode success the
dictionary's `Length` becomes the actual byte count. -/
theorem streamDataAndLength_windowed (streamStart : Nat) (body : List Nat)
    (l w : Nat) (stop : Int) :
    (checkExpectedEndStream streamStart body l w stop = none →
      streamDataAndLength false streamStart body l w stop = .error () ∧
      (∀ e, indexOfSub endstreamBytes body = some e →
        streamDataAndLength true streamStart body l w stop
          = .ok (body.take e, (body.take e).length)) ∧
      (indexOfSub endstreamBytes body = none →
        streamDataAndLength true streamStart body l w stop = .error ())) ∧
    (∀ a, checkExpectedEndStream streamStart body l w stop = some a → a ≠ l →
      streamDataAndLength false streamStart body l w stop = .error () ∧
      streamDataAndLength true streamStart body l w stop
        = .ok (body.take a, (body.take a).length)) := by
  constructor
  · intro hnone
    refine ⟨?_, ?_, ?_⟩
    · have hg : getStreamBytes false streamStart body l w stop = .error () := by
        simp [getStreamBytes, hnone]
      simp only [streamDataAndLength, hg]
    · intro e he
      have hg : getStreamBytes true streamStart body l w stop = .ok (body.take e) := by
        simp [getStreamBytes, hnone, he]
      simp only [streamDataAndLength, hg]
      rw [length_update_eq]
    · intro he
      have hg : getStreamBytes true streamStart body l w stop = .error () := by
        simp [getStreamBytes, hnone, he]
      simp only [streamDataAndLength, hg]
  · intro a ha hne
    have hg1 : getStreamBytes false streamStart body l w stop = .error () := by
      simp [getStreamBytes, ha, Ne.symm hne]
    have hg2 : getStreamBytes true streamStart body l w stop = .ok (body.take a) := by
      simp [getStreamBytes, ha]
    refine ⟨by simp only [streamDataAndLength, hg1], ?_⟩
    simp only [streamDataAndLength, hg2]
    rw [length_update_eq]

/-- Witness for claim C2, the object-boundary scenario: stream start at
file position 40, object end 60, declared length 30, `endstream`
keywords at stream offsets 10 and 27 of a 36-byte body.  The declared
end 70 crosses the object's stop, so the window is not consulted:
strict mode errors, fix mode scans from the stream start, recovers the
10 payload bytes and sets `Length` to 10. -/
theorem streamDataAndLength_windowed_w :
    checkExpectedEndStream 40 streamDemoBody 30 15 60 = none ∧
    indexOfSub endstreamBytes streamDemoBody = some 10 ∧
    streamDataAndLength false 40 streamDemoBody 30 15 60 = .error () ∧
    streamDataAndLength true 40 streamDemoBody 30 15 60
      = .ok (List.replicate 10 65, 10) := by
  have h1 : checkExpectedEndStream 40 streamDemoBody 30 15 60 = none := by
    rfl
  have h2 : indexOfSub endstreamBytes streamDemoBody = some 10 := by
    rfl
  have h := (streamDataAndLength_windowed 40 streamDemoBody 30 15 60).1 h1
  exact ⟨h1, h2, h.1, h.2.1 10 h2⟩

/-- Counterexample to claim C3 as stated: a dictionary whose source
repeats a key (`/A 1 /B 2 /A 3`) gets the ordered key list A, B, A —
each occurrence is appended (parse.go:654) — which is not the list of
keys in order of first appearance. -/
theorem getDictionaryPairs_duplicate_key_order :
    (getDictionaryPairs [("A", (1 : Nat)), ("B", 2), ("A", 3)]).keys
      ≠ specFirstAppearanceOrder
          ([("A", (1 : Nat)), ("B", 2), ("A", 3)].map Prod.fst) := by
  decide

/-- Keys accumulated by the dictionary loop: the ordered key list of a
parse is the initial keys followed by one entry per key/value pair, in
file order (parse.go:654). -/
theorem getDictionaryPairs_keys_append {α : Type} (ps : List (String × α))
    (init : pdfDictionary α) :
    (ps.foldl (fun d p => ⟨d.keys ++ [p.1], dictInsert d.data p.1 p.2⟩) init).keys
      = init.keys ++ ps.map Prod.fst := by
  induction ps generalizing init with
  | nil => simp
  | cons p rest ih => simp [List.foldl_cons, ih]

/-- Bindings accumulated by the dictionary loop, newest first. -/
theorem getDictionaryPairs_data_fst {α : Type} (ps : List (String × α))
    (init : pdfDictionary α) :
    (ps.foldl (fun d p => ⟨d.keys ++ [p.1], dictInsert d.data p.1 p.2⟩) init).data.map Prod.fst
      = (ps.map Prod.fst).reverse ++ init.data.map Prod.fst := by
  induction ps generalizing init with
  | nil => simp
  | cons p rest ih =>
    rw [List.foldl_cons, ih]
    simp [dictInsert]

/-- A lookup in the modelled Go map succeeds exactly for the stored keys. -/
theorem dictLookup_isSome_iff {α : Type} (m : List (String × α)) (k : String) :
    (dictLookup m k).isSome = true ↔ k ∈ m.map Prod.fst := by
  induction m with
  | nil => simp [dictLookup]
  | cons p rest ih =>
    by_cases h : p.1 = k
    · simp [dictLookup, h]
    · simp [dictLookup, h, ih, Ne.symm h]

/-- The serializer's key loop succeeds and emits exactly the listed keys
in order whenever every key has a value in the map. -/
theorem serializeDictionary_go_some {α : Type} (data : List (String × α)) :
    ∀ ks : List String, (∀ k ∈ ks, (dictLookup data k).isSome = true) →
      ∃ es, serializeDictionary.go data ks = some es ∧ es.map Prod.fst = ks := by
  intro ks
  induction ks with
  | nil => intro _; exact ⟨[], rfl, rfl⟩
  | cons k rest ih =>
    intro h
    obtain ⟨v, hv⟩ := Option.isSome_iff_exists.mp (h k (by simp))
    obtain ⟨es, hes, hfst⟩ := ih (fun k2 hk2 => h k2 (by simp [hk2]))
    exact ⟨(k, v) :: es, by simp [serializeDictionary.go, hv, hes], by simp [hfst]⟩

/-- Claim C3 (amended).  The ordered key list of a parsed dictionary
records one entry per key occurrence in file order (a repeated key is
listed once per occurrence, not only at its first appearance);
serialization emits its entries in exactly that order and never hits the
missing-key panic; re-parsing the emitted entries reproduces the same
ordered key list, so a parse-serialize round trip preserves the key
order. -/
theorem getDictionaryPairs_key_order {α : Type} (ps : List (String × α)) :
    (getDictionaryPairs ps).keys = ps.map Prod.fst ∧
    ∃ es, serializeDictionary (getDictionaryPairs ps) = some es ∧
      es.map Prod.fst = (getDictionaryPairs ps).keys ∧
      (getDictionaryPairs es).keys = (getDictionaryPairs ps).keys := by
  have hkeys : ∀ qs : List (String × α), (getDictionaryPairs qs).keys = qs.map Prod.fst := by
    intro qs
    simpa using getDictionaryPairs_keys_append qs ⟨[], []⟩
  have hlk : ∀ k ∈ (getDictionaryPairs ps).keys,
      (dictLookup (getDictionaryPairs ps).data k).isSome = true := by
    intro k hk
    rw [hkeys ps] at hk
    rw [dictLookup_isSome_iff]
    have hdata := getDictionaryPairs_data_fst ps (⟨[], []⟩ : pdfDictionary α)
    simp only [getDictionaryPairs] at hdata ⊢
    rw [hdata]
    simp [hk]
  obtain ⟨es, hes, hfst⟩ :=
    serializeDictionary_go_some (getDictionaryPairs ps).data (getDictionaryPairs ps).keys hlk
  refine ⟨hkeys ps, es, hes, hfst, ?_⟩
  rw [hkeys es, hfst]

/-- Counterexample to claim C8 as stated: a file starting
`%PDF-1.Z` followed by LF and ordinary content is accepted by
`readFirstLine`, although its eighth byte `Z` (90) is not a digit in
0..7 (bytes 48..55): the minor-version byte is never checked
(parse.go:1329-1343). -/
theorem readFirstLine_accepts_nondigit_minor :
    readFirstLine ([37, 80, 68, 70, 45, 49, 46, 90, 10] ++
        [49, 50, 51, 52, 53, 54, 55, 56, 57])
      = .ok ([37, 80, 68, 70, 45, 49, 46, 90], 9) ∧
    ¬ (48 ≤ 90 ∧ 90 ≤ 55) :=
  ⟨rfl, by decide⟩

/-- Claim C8 (amended).  `readFirstLine` validates bytes 0-6 against
`%PDF-1.` and requires an EOL as the ninth byte, but never examines the
eighth byte (the minor-version position): with enough content after the
header, a file is accepted for EVERY value b of that byte, and it is the
ninth byte not being LF or CR that makes the header fatal. -/
theorem readFirstLine_minor_unchecked (b : Nat) (rest : List Nat)
    (h : 6 ≤ rest.length) :
    (∃ r, readFirstLine (37 :: 80 :: 68 :: 70 :: 45 :: 49 :: 46 :: b :: 10 :: rest) = .ok r) ∧
    (∀ c rest2, c ≠ 10 → c ≠ 13 →
      readFirstLine (37 :: 80 :: 68 :: 70 :: 45 :: 49 :: 46 :: b :: c :: rest2) = .error ()) := by
  constructor
  · simp only [readFirstLine, List.get?, List.length_cons]
    norm_num
    rw [if_neg (by omega), if_neg (by omega)]
    split
    · exact ⟨_, _, rfl⟩
    · exact ⟨_, _, rfl⟩
  · intro c rest2 hc10 hc13
    simp only [readFirstLine, List.get?, List.length_cons]
    norm_num [hc10, hc13]

/-- Witness for claim C8: the header `%PDF-1.` with minor byte `Z` (90)
and six content bytes is accepted, and `Z` in place of the EOL is
rejected. -/
theorem readFirstLine_minor_unchecked_w :
    6 ≤ ([49, 50, 51, 52, 53, 54] : List Nat).length ∧
    ((∃ r, readFirstLine
        (37 :: 80 :: 68 :: 70 :: 45 :: 49 :: 46 :: 90 :: 10 :: [49, 50, 51, 52, 53, 54]) = .ok r) ∧
     (∀ c rest2, c ≠ 10 → c ≠ 13 →
        readFirstLine
          (37 :: 80 :: 68 :: 70 :: 45 :: 49 :: 46 :: 90 :: c :: rest2) = .error ())) := by
  have h : 6 ≤ ([49, 50, 51, 52, 53, 54] : List Nat).length := by decide
  exact ⟨h, readFirstLine_minor_unchecked 90 [49, 50, 51, 52, 53, 54] h⟩

/-- When every in-use offset of a subsection is within the bound, the
entry loop succeeds with `badOffset` still -1 and all collected
boundaries carry `stop = -1` (parse.go:999-1064). -/
theorem collectBoundaries_all_good (fix : Bool) (maxObjPos startId : Int) :
    ∀ (entries : List RawEntry) (i : Int) (acc : List PdfObject),
      (∀ e ∈ entries, e.inUse = true → e.offset ≤ maxObjPos) →
      (∀ x ∈ acc, x.stop = -1) →
      ∃ bs, collectBoundaries fix maxObjPos startId entries i acc (-1) = .ok (bs, -1) ∧
        ∀ x ∈ bs, x.stop = -1 := by
  intro entries
  induction entries with
  | nil => intro i acc _ hacc; exact ⟨acc, rfl, hacc⟩
  | cons e rest ih =>
    intro i acc h hacc
    by_cases hu : e.inUse = true
    · have hoff : ¬ ((-1 : Int) ≠ -1 ∨ e.offset > maxObjPos) := by
        push_neg
        exact ⟨rfl, h e (by simp) hu⟩
      have hacc2 : ∀ x ∈ acc ++ [(⟨startId + i, e.gen, e.offset, -1⟩ : PdfObject)], x.stop = -1 := by
        intro x hx
        rcases List.mem_append.mp hx with hx | hx
        · exact hacc x hx
        · simp at hx; subst hx; rfl
      obtain ⟨bs, hbs, hstop⟩ :=
        ih (i + 1) (acc ++ [⟨startId + i, e.gen, e.offset, -1⟩])
          (fun e2 he2 hu2 => h e2 (by simp [he2]) hu2) hacc2
      refine ⟨bs, ?_, hstop⟩
      simp only [collectBoundaries, hu, if_true, if_neg hoff]
      exact hbs
    · obtain ⟨bs, hbs, hstop⟩ :=
        ih (i + 1) acc (fun e2 he2 hu2 => h e2 (by simp [he2]) hu2) hacc
      refine ⟨bs, ?_, hstop⟩
      simp only [collectBoundaries, hu]
      simp only [Bool.not_eq_true] at hu
      simp [hu]
      exact hbs

/-- Updating the stop field leaves the start offset unchanged. -/
theorem withStop_start (a : PdfObject) (s : Int) :
    ({ a with stop := s } : PdfObject).start = a.start := rfl

/-- Updating the stop field stores exactly the given stop offset. -/
theorem withStop_stop (a : PdfObject) (s : Int) :
    ({ a with stop := s } : PdfObject).stop = s := rfl

/-- Unfolding of the stop-derivation loop on two or more boundaries. -/
theorem deriveStops_cons_cons (a b : PdfObject) (rest : List PdfObject) :
    deriveStops (a :: b :: rest)
      = { a with stop := b.start } :: deriveStops (b :: rest) := rfl

/-- The stop derivation keeps the first boundary's start offset. -/
theorem deriveStops_head (b : PdfObject) (rest : List PdfObject) :
    ∃ hd tl, deriveStops (b :: rest) = hd :: tl ∧ hd.start = b.start := by
  cases rest with
  | nil => exact ⟨b, [], rfl, rfl⟩
  | cons c rs => exact ⟨{ b with stop := c.start }, deriveStops (c :: rs), rfl, rfl⟩

/-- Every start offset after stop derivation was a start offset before. -/
theorem deriveStops_start_mem :
    ∀ l : List PdfObject, ∀ x ∈ deriveStops l, ∃ c ∈ l, c.start = x.start
  | [] => by simp [deriveStops]
  | [a] => by
    intro x hx
    simp [deriveStops] at hx
    exact ⟨a, by simp, by rw [hx]⟩
  | a :: b :: rest => by
    intro x hx
    rw [deriveStops_cons_cons, List.mem_cons] at hx
    rcases hx with hx | hx
    · exact ⟨a, by simp, by rw [hx]⟩
    · obtain ⟨c, hc, hcs⟩ := deriveStops_start_mem (b :: rest) x hx
      exact ⟨c, by simp [List.mem_cons.mp hc], hcs⟩

/-- Stop derivation preserves sortedness by start offset. -/
theorem deriveStops_sorted :
    ∀ l : List PdfObject, l.Sorted startLE → (deriveStops l).Sorted startLE
  | [] => fun _ => List.sorted_nil
  | [a] => fun _ => List.sorted_singleton _
  | a :: b :: rest => by
    intro hs
    rw [deriveStops_cons_cons, List.sorted_cons]
    constructor
    · intro z hz
      obtain ⟨c, hc, hcs⟩ := deriveStops_start_mem (b :: rest) z hz
      have h1 : startLE a c := List.rel_of_sorted_cons hs c hc
      unfold startLE at h1 ⊢
      rw [withStop_start]
      omega
    · exact deriveStops_sorted (b :: rest) hs.of_cons

/-- After stop derivation, each boundary's stop equals the next
boundary's start (parse.go:1069-1071). -/
theorem deriveStops_chain :
    ∀ l : List PdfObject, (deriveStops l).Chain' (fun a b => a.stop = b.start)
  | [] => List.chain'_nil
  | [a] => List.chain'_singleton _
  | a :: b :: rest => by
    rw [deriveStops_cons_cons]
    obtain ⟨hd, tl, hD, hhd⟩ := deriveStops_head b rest
    rw [hD, List.chain'_cons]
    refine ⟨by simp [hhd], ?_⟩
    rw [← hD]
    exact deriveStops_chain (b :: rest)

/-- Stop derivation leaves the last boundary unchanged
(parse.go:1069, the loop runs to `nInUse - 1`). -/
theorem deriveStops_getLast_opt :
    ∀ l : List PdfObject, (deriveStops l).getLast? = l.getLast?
  | [] => rfl
  | [a] => rfl
  | a :: b :: rest => by
    obtain ⟨hd, tl, hD, _⟩ := deriveStops_head b rest
    rw [deriveStops_cons_cons, hD, List.getLast?_cons_cons, ← hD,
        deriveStops_getLast_opt (b :: rest), List.getLast?_cons_cons]

/-- The last element of a list is one of its members. -/
theorem mem_of_getLast_opt :
    ∀ (l : List PdfObject) (x : PdfObject), l.getLast? = some x → x ∈ l
  | [], _ => by intro h; simp at h
  | [a], x => by
    intro h
    simp at h
    simp [h]
  | a :: b :: rest, x => by
    intro h
    rw [List.getLast?_cons_cons] at h
    exact List.mem_cons_of_mem a (mem_of_getLast_opt (b :: rest) x h)

/-- On a list sorted by start offset, stop derivation makes every
boundary's stop at most the start of any boundary with a larger start. -/
theorem deriveStops_stop_le :
    ∀ l : List PdfObject, l.Sorted startLE →
      ∀ a ∈ deriveStops l, ∀ b ∈ deriveStops l, a.start < b.start → a.stop ≤ b.start
  | [] => by simp [deriveStops]
  | [x] => by
    intro _ a ha b hb hab
    simp [deriveStops] at ha hb
    subst ha; subst hb
    omega
  | x :: y :: rest => by
    intro hs a ha b hb hab
    have hrel : ∀ z ∈ y :: rest, startLE x z := fun z hz => List.rel_of_sorted_cons hs z hz
    rw [deriveStops_cons_cons, List.mem_cons] at ha hb
    rcases ha with ha | ha
    · rcases hb with hb | hb
      · rw [ha, hb] at hab
        omega
      · obtain ⟨c, hc, hcs⟩ := deriveStops_start_mem (y :: rest) b hb
        have hyc : startLE y c := by
          rcases List.mem_cons.mp hc with hc2 | hc2
          · rw [hc2]; exact le_refl _
          · exact List.rel_of_sorted_cons hs.of_cons c hc2
        subst ha
        unfold startLE at hyc
        rw [withStop_stop]
        omega
    · rcases hb with hb | hb
      · obtain ⟨c, hc, hcs⟩ := deriveStops_start_mem (y :: rest) a ha
        have hxc : startLE x c := hrel c hc
        subst hb
        unfold startLE at hxc
        have hab2 : a.start < x.start := hab
        omega
      · exact deriveStops_stop_le (y :: rest) hs.of_cons a ha b hb hab

/-- Claim C4 (confirmed).  For every XREF subsection whose in-use
offsets are all within the bound, `parseXrefSubsection` produces its
boundary list sorted by start offset, with each boundary's stop equal to
the next boundary's start, the final (largest-start) boundary keeping
`stop = -1`; consequently any two boundaries a, b with
`a.start < b.start` satisfy `a.stop ≤ b.start`. -/
theorem parseXrefSubsection_stop_offsets (fix : Bool) (maxObjPos startId : Int)
    (entries : List RawEntry)
    (h : ∀ e ∈ entries, e.inUse = true → e.offset ≤ maxObjPos) :
    ∃ bs, subsectionBoundaries fix maxObjPos startId entries = .ok bs ∧
      bs.Sorted startLE ∧
      bs.Chain' (fun a b => a.stop = b.start) ∧
      (∀ x, bs.getLast? = some x → x.stop = -1) ∧
      (∀ a ∈ bs, ∀ b ∈ bs, a.start < b.start → a.stop ≤ b.start) := by
  obtain ⟨bs0, hok, hstops⟩ :=
    collectBoundaries_all_good fix maxObjPos startId entries 0 [] h (by simp)
  have hsorted : (sortBoundaries bs0).Sorted startLE :=
    List.sorted_insertionSort startLE bs0
  refine ⟨deriveStops (sortBoundaries bs0), ?_, ?_, ?_, ?_, ?_⟩
  · simp only [subsectionBoundaries, hok]
    rfl
  · exact deriveStops_sorted _ hsorted
  · exact deriveStops_chain _
  · intro x hx
    rw [deriveStops_getLast_opt] at hx
    have hmem : x ∈ sortBoundaries bs0 := mem_of_getLast_opt _ x hx
    have : x ∈ bs0 := by
      have := (List.perm_insertionSort startLE bs0).mem_iff.mp hmem
      exact this
    exact hstops x this
  · exact deriveStops_stop_le _ hsorted

/-- Witness for claim C4: a subsection with in-use offsets 30, 10, 20
(and one free entry) under bound 100. -/
theorem parseXrefSubsection_stop_offsets_w :
    (∀ e ∈ ([⟨30, 0, true⟩, ⟨10, 0, true⟩, ⟨20, 0, false⟩, ⟨20, 0, true⟩] : List RawEntry),
      e.inUse = true → e.offset ≤ 100) ∧
    (∃ bs, subsectionBoundaries false 100 1
        [⟨30, 0, true⟩, ⟨10, 0, true⟩, ⟨20, 0, false⟩, ⟨20, 0, true⟩] = .ok bs ∧
      bs.Sorted startLE ∧
      bs.Chain' (fun a b => a.stop = b.start) ∧
      (∀ x, bs.getLast? = some x → x.stop = -1) ∧
      (∀ a ∈ bs, ∀ b ∈ bs, a.start < b.start → a.stop ≤ b.start)) := by
  have hh : ∀ e ∈ ([⟨30, 0, true⟩, ⟨10, 0, true⟩, ⟨20, 0, false⟩, ⟨20, 0, true⟩] : List RawEntry),
      e.inUse = true → e.offset ≤ 100 := by decide
  exact ⟨hh, parseXrefSubsection_stop_offsets false 100 1 _ hh⟩

/-- The id loop of `serializeXREF` faults exactly when some id in its
range has no entry in `ObjById`. -/
theorem xrefEntriesFrom_none_iff (byId : ObjMap) :
    ∀ (k a : Nat), xrefEntriesFrom byId a k = none ↔
      ∃ j : Nat, a ≤ j ∧ j < a + k ∧ lookupId (j : Int) byId = none := by
  intro k
  induction k with
  | zero =>
    intro a
    simp only [xrefEntriesFrom]
    constructor
    · intro h; simp at h
    · rintro ⟨j, h1, h2, _⟩; omega
  | succ n ih =>
    intro a
    simp only [xrefEntriesFrom]
    cases hl : lookupId (a : Int) byId with
    | none =>
      simp only [true_iff]
      exact ⟨a, le_refl a, by omega, hl⟩
    | some obj =>
      rw [Option.map_eq_none']
      rw [ih (a + 1)]
      constructor
      · rintro ⟨j, h1, h2, h3⟩
        exact ⟨j, by omega, by omega, h3⟩
      · rintro ⟨j, h1, h2, h3⟩
        refine ⟨j, ?_, by omega, h3⟩
        rcases Nat.eq_or_lt_of_le h1 with he | hlt
        · subst he; rw [hl] at h3; cases h3
        · omega

/-- Claim C10 (confirmed).  `serializeXREF` looks up `ObjById[id]` for
every id from 1 to `len(Objects)`; it faults (dereferences a missing,
nil entry) exactly when some id in that contiguous range is absent from
`ObjById` — a gap in the id numbering makes the XREF pass fault, and
without a gap the pass is well defined. -/
theorem serializeXREF_none_iff_gap (objects : List PdfObject) (byId : ObjMap) :
    serializeXREF objects byId = none ↔
      ∃ id : Nat, 1 ≤ id ∧ id ≤ objects.length ∧ lookupId (id : Int) byId = none := by
  rw [serializeXREF, xrefEntriesFrom_none_iff]
  constructor
  · rintro ⟨j, h1, h2, h3⟩
    exact ⟨j, h1, by omega, h3⟩
  · rintro ⟨j, h1, h2, h3⟩
    exact ⟨j, h1, by omega, h3⟩

/-- Modelled from Go's documented `%g` output when it carries an
exponent: an optional minus sign, one mantissa digit, an optional
fraction of a dot and 1 to 16 digits (a float64 shortest rendering has
at most 17 significant digits), the letter `e`, an optional exponent
sign and at least one exponent digit; `%g` chooses the exponent form
exactly when the decimal exponent is below -4 or at least 21. -/
def expShape (res : List Char) : Prop :=
  ∃ sign d frac esign eds,
    res = sign ++ [d] ++ frac ++ 'e' :: (esign ++ eds) ∧
    (sign = [] ∨ sign = ['-']) ∧
    d.isDigit = true ∧
    (frac = [] ∨ ∃ ds, frac = '.' :: ds ∧ ds ≠ [] ∧ ds.length ≤ 16 ∧
      ds.all Char.isDigit = true) ∧
    (esign = [] ∨ esign = ['+'] ∨ esign = ['-']) ∧
    eds ≠ [] ∧ eds.all Char.isDigit = true ∧
    (atoiOrZero (esign ++ eds) ≤ -5 ∨ 21 ≤ atoiOrZero (esign ++ eds))

/-- Shape of every `fmt.Sprintf("%g", n)` rendering of a finite float:
either it has no exponent character at all, or it is in exponent form. -/
def goGFormat (res : List Char) : Prop := findE res = none ∨ expShape res

/-- A decimal digit is not the exponent letter. -/
theorem digit_ne_e {c : Char} (h : c.isDigit = true) : c ≠ 'e' := by
  intro he; subst he; exact absurd h (by decide)

/-- A decimal digit is not the minus sign. -/
theorem digit_ne_dash {c : Char} (h : c.isDigit = true) : c ≠ '-' := by
  intro he; subst he; exact absurd h (by decide)

/-- The exponent search fails exactly when no `e` occurs. -/
theorem findE_none_iff : ∀ l : List Char, findE l = none ↔ 'e' ∉ l := by
  intro l
  induction l with
  | nil => simp [findE]
  | cons c rest ih =>
    by_cases hc : c = 'e'
    · simp [findE, hc]
    · simp [findE, hc, Option.map_eq_none', ih, Ne.symm hc]

/-- The exponent search finds the first `e`. -/
theorem findE_append_of_not_mem (l1 l2 : List Char) (h : 'e' ∉ l1) :
    findE (l1 ++ 'e' :: l2) = some l1.length := by
  induction l1 with
  | nil => simp [findE]
  | cons c rest ih =>
    have hc : c ≠ 'e' := fun he => h (by simp [he])
    have hrest : 'e' ∉ rest := fun hm => h (by simp [hm])
    simp [findE, hc, ih hrest]

/-- Claim C9 (confirmed).  For every finite float rendered by `%g`,
`serializeNumber` emits a plain decimal string: the denormalisation
succeeds — the `panic("Unexpected %g case")` branch (serialize.go:159)
is never reached, because with a positive exponent either the mantissa
has a decimal point (`pt = 1`) or it is a single digit (`ml = 1`), and
both force `dp = 0` — and the output contains no exponent character. -/
theorem serializeNumber_no_exponent (res : List Char) (h : goGFormat res) :
    ∃ out, serializeNumberFormat res = some out ∧ 'e' ∉ out := by
  rcases h with hnone | ⟨sign, d, frac, esign, eds, hres, hsign, hd, hfrac, hesign, hne, hdig, hexp⟩
  · exact ⟨res, by simp [serializeNumberFormat, hnone], (findE_none_iff res).mp hnone⟩
  · have hdE := digit_ne_e hd
    have hdD := digit_ne_dash hd
    subst hres
    rcases hsign with rfl | rfl <;>
      rcases hfrac with rfl | ⟨ds, rfl, hdsne, hdslen, hdsdig⟩
    -- shape A : d :: 'e' :: R
    · have hE : findE (d :: 'e' :: (esign ++ eds)) = some 1 := by
        simp [findE, hdE]
      rcases lt_trichotomy (atoiOrZero (esign ++ eds)) 0 with hneg | hzero | hpos
      · refine ⟨'0' :: '.' ::
            (List.replicate ((-(atoiOrZero (esign ++ eds))).toNat - 1) '0' ++ [d]), ?_, ?_⟩
        · simp [serializeNumberFormat, hE, hdD, hneg]
        · simp [List.mem_replicate]
          exact fun h2 => hdE h2.symm
      · exfalso
        rcases hexp with h5 | h21 <;> omega
      · refine ⟨d :: List.replicate (atoiOrZero (esign ++ eds)).toNat '0', ?_, ?_⟩
        · simp [serializeNumberFormat, hE, hdD, hpos, not_lt.mpr (le_of_lt hpos)]
        · simp [List.mem_replicate]
          exact fun h2 => hdE h2.symm
    -- shape B : d :: '.' :: (ds ++ 'e' :: R)
    · have hdsE : 'e' ∉ ds := by
        intro hm
        have := List.all_eq_true.mp hdsdig _ hm
        exact absurd this (by decide)
      have hl1 : 'e' ∉ (d :: '.' :: ds) := by
        intro hm
        rcases List.mem_cons.mp hm with h1 | hm2
        · exact hdE h1.symm
        · rcases List.mem_cons.mp hm2 with h2 | hm3
          · exact absurd h2 (by decide)
          · exact hdsE hm3
      have hE : findE (d :: '.' :: (ds ++ 'e' :: (esign ++ eds))) = some (ds.length + 2) := by
        have h3 := findE_append_of_not_mem (d :: '.' :: ds) (esign ++ eds) hl1
        simpa using h3
      rcases lt_trichotomy (atoiOrZero (esign ++ eds)) 0 with hneg | hzero | hpos
      · refine ⟨'0' :: '.' ::
            (List.replicate ((-(atoiOrZero (esign ++ eds))).toNat - 1) '0' ++ d :: ds), ?_, ?_⟩
        · simp [serializeNumberFormat, hE, hdD, hneg]
          have h1 : ((ds.length : Int) + 2).toNat - 1 - 1 = ds.length := by omega
          rw [h1, List.take_left]
        · simp [List.mem_replicate]
          constructor
          · exact fun h2 => hdE h2.symm
          · exact fun h2 => hdsE h2
      · exfalso
        rcases hexp with h5 | h21 <;> omega
      · refine ⟨d :: (ds ++
            List.replicate (atoiOrZero (esign ++ eds) - ds.length).toNat '0'), ?_, ?_⟩
        · simp [serializeNumberFormat, hE, hdD, hpos, not_lt.mpr (le_of_lt hpos)]
          have h1 : ((ds.length : Int) + 2).toNat - 1 - 1 = ds.length := by omega
          have h2 : (atoiOrZero (esign ++ eds) - ((ds.length : Int) + 2 - 1) + 1).toNat
              = (atoiOrZero (esign ++ eds)).toNat - ds.length := by omega
          rw [h1, h2, List.take_left]
        · simp [List.mem_replicate]
          constructor
          · exact fun h2 => hdE h2.symm
          · exact fun h2 => hdsE h2
    -- shape C : '-' :: d :: 'e' :: R
    · have hE : findE ('-' :: d :: 'e' :: (esign ++ eds)) = some 2 := by
        simp [findE, hdE]
      rcases lt_trichotomy (atoiOrZero (esign ++ eds)) 0 with hneg | hzero | hpos
      · refine ⟨'-' :: '0' :: '.' ::
            (List.replicate ((-(atoiOrZero (esign ++ eds))).toNat - 1) '0' ++ [d]), ?_, ?_⟩
        · simp [serializeNumberFormat, hE, hneg]
        · simp [List.mem_replicate]
          exact fun h2 => hdE h2.symm
      · exfalso
        rcases hexp with h5 | h21 <;> omega
      · refine ⟨'-' :: d :: List.replicate (atoiOrZero (esign ++ eds)).toNat '0', ?_, ?_⟩
        · simp [serializeNumberFormat, hE, hpos, not_lt.mpr (le_of_lt hpos)]
        · simp [List.mem_replicate]
          exact fun h2 => hdE h2.symm
    -- shape D : '-' :: d :: '.' :: (ds ++ 'e' :: R)
    · have hdsE : 'e' ∉ ds := by
        intro hm
        have h4 := List.all_eq_true.mp hdsdig _ hm
        exact absurd h4 (by decide)
      have hl1 : 'e' ∉ '-' :: d :: '.' :: ds := by
        intro hm
        rcases List.mem_cons.mp hm with h0 | hm1
        · exact absurd h0 (by decide)
        · rcases List.mem_cons.mp hm1 with h1 | hm2
          · exact hdE h1.symm
          · rcases List.mem_cons.mp hm2 with h2 | hm3
            · exact absurd h2 (by decide)
            · exact hdsE hm3
      have hE : findE ('-' :: d :: '.' :: (ds ++ 'e' :: (esign ++ eds)))
          = some (ds.length + 3) := by
        have h3 := findE_append_of_not_mem ('-' :: d :: '.' :: ds) (esign ++ eds) hl1
        simpa using h3
      rcases lt_trichotomy (atoiOrZero (esign ++ eds)) 0 with hneg | hzero | hpos
      · refine ⟨'-' :: '0' :: '.' ::
            (List.replicate ((-(atoiOrZero (esign ++ eds))).toNat - 1) '0' ++ d :: ds), ?_, ?_⟩
        · simp [serializeNumberFormat, hE, hneg]
          have h1 : ((ds.length : Int) + 3).toNat - 1 - 1 - 1 = ds.length := by omega
          rw [h1, List.take_left]
        · simp [List.mem_replicate]
          constructor
          · exact fun h2 => hdE h2.symm
          · exact fun h2 => hdsE h2
      · exfalso
        rcases hexp with h5 | h21 <;> omega
      · refine ⟨'-' :: d :: (ds ++
            List.replicate ((atoiOrZero (esign ++ eds)).toNat - ds.length) '0'), ?_, ?_⟩
        · simp [serializeNumberFormat, hE, hpos, not_lt.mpr (le_of_lt hpos)]
          have h1 : ((ds.length : Int) + 3).toNat - 1 - 1 - 1 = ds.length := by omega
          have h2 : (atoiOrZero (esign ++ eds) - ((ds.length : Int) + 3 - 1 - 1) + 1).toNat
              = (atoiOrZero (esign ++ eds)).toNat - ds.length := by omega
          rw [h1, h2, List.take_left]
        · simp [List.mem_replicate]
          constructor
          · exact fun h2 => hdE h2.symm
          · exact fun h2 => hdsE h2
/-- Witness for claim C9: the rendering `1.5e-05` denormalises to an
exponent-free decimal string. -/
theorem serializeNumber_no_exponent_w :
    goGFormat ['1', '.', '5', 'e', '-', '0', '5'] ∧
    ∃ out, serializeNumberFormat ['1', '.', '5', 'e', '-', '0', '5'] = some out ∧
      'e' ∉ out := by
  have hp : goGFormat ['1', '.', '5', 'e', '-', '0', '5'] :=
    Or.inr ⟨[], '1', ['.', '5'], ['-'], ['0', '5'], rfl, Or.inl rfl, by decide,
      Or.inr ⟨['5'], rfl, by decide, by decide, by decide⟩, Or.inr (Or.inr rfl),
      by decide, by decide, by decide⟩
  exact ⟨hp, serializeNumber_no_exponent _ hp⟩

end PdfSpec
